import Mathlib

/-!
Verification of the memento diary backend (src/backend) against its
natural-language specification.  The Python routines are embedded as
executable Lean definitions: calendar dates (`datetime.date`) become a
record with explicit validity bounds, SQLAlchemy rows become records,
database tables become lists of records, raised `HTTPException`s become
`Except` errors, and the filesystem touched by the image pipeline becomes
an explicit path-indexed map.
-/

set_option maxHeartbeats 1600000

namespace Memento

/-! ## Calendar dates (model of Python `datetime.date`)

`datetime.date(year, month, day)` accepts `1 <= year <= 9999` and a
month/day pair valid for that year, raising `ValueError` otherwise; dates
compare lexicographically on (year, month, day) and subtraction yields the
difference of proleptic-Gregorian ordinals. -/

def isLeapYear (y : Nat) : Bool :=
  y % 4 == 0 && (y % 100 != 0 || y % 400 == 0)

def daysInMonth (y m : Nat) : Nat :=
  if m = 2 then (if isLeapYear y then 29 else 28)
  else if m = 4 ∨ m = 6 ∨ m = 9 ∨ m = 11 then 30
  else 31

structure PyDate where
  year : Nat
  month : Nat
  day : Nat
deriving DecidableEq, Repr

def PyDate.valid (d : PyDate) : Prop :=
  1 ≤ d.year ∧ d.year ≤ 9999 ∧ 1 ≤ d.month ∧ d.month ≤ 12 ∧
    1 ≤ d.day ∧ d.day ≤ daysInMonth d.year d.month

instance (d : PyDate) : Decidable d.valid := by
  unfold PyDate.valid; infer_instance

/-- Model of the `date(y, m, d)` constructor: `none` models the raised
`ValueError` on out-of-range input. -/
def mkDate (y m d : Nat) : Option PyDate :=
  if (PyDate.mk y m d).valid then some ⟨y, m, d⟩ else none

/-- Lexicographic strict order on (year, month, day): Python `date` `<`. -/
def pyLt (a b : PyDate) : Bool :=
  a.year < b.year ∨ (a.year = b.year ∧
    (a.month < b.month ∨ (a.month = b.month ∧ a.day < b.day)))

/-- Lexicographic order on (year, month, day): Python `date` `<=`. -/
def pyLe (a b : PyDate) : Bool :=
  pyLt a b || a == b

/-- Days strictly before month `m` in year `y` (ordinal-arithmetic helper
for Python date subtraction). -/
def daysBeforeMonth (y m : Nat) : Nat :=
  (match m with
    | 1 => 0 | 2 => 31 | 3 => 59 | 4 => 90 | 5 => 120 | 6 => 151
    | 7 => 181 | 8 => 212 | 9 => 243 | 10 => 273 | 11 => 304 | _ => 334)
  + (if 3 ≤ m ∧ isLeapYear y then 1 else 0)

/-- Proleptic Gregorian ordinal (Python `date.toordinal`):
0001-01-01 has ordinal 1. -/
def toOrdinal (d : PyDate) : Nat :=
  365 * (d.year - 1) + (d.year - 1) / 4 + (d.year - 1) / 400
    - (d.year - 1) / 100 + daysBeforeMonth d.year d.month + d.day

/-- Calendar successor of a date (spec-side helper for "today + N days"). -/
def nextDay (d : PyDate) : PyDate :=
  if d.day < daysInMonth d.year d.month then ⟨d.year, d.month, d.day + 1⟩
  else if d.month < 12 then ⟨d.year, d.month + 1, 1⟩
  else ⟨d.year + 1, 1, 1⟩

/-- The date `n` calendar days after `d` (spec-side "today + window"). -/
def addDays (d : PyDate) (n : Nat) : PyDate :=
  nextDay^[n] d

theorem addDays_within_month (y m day n : Nat)
    (h : day + n ≤ daysInMonth y m) :
    addDays ⟨y, m, day⟩ n = ⟨y, m, day + n⟩ := by
  induction n with
  | zero => rfl
  | succ k ih =>
      have hk : day + k ≤ daysInMonth y m := by omega
      have hlt : day + k < daysInMonth y m := by omega
      unfold addDays at *
      rw [Function.iterate_succ_apply', ih hk]
      simp only [nextDay]
      split
      · simp only [PyDate.mk.injEq]
        exact ⟨trivial, trivial, by omega⟩
      · next hcond => exact absurd hlt (by simpa using hcond)

/-! ## SpecialDay rows and the upcoming view (routes.py `get_upcoming_special_days`) -/

/-- A row of the `special_days` table (models.py `SpecialDay`). -/
structure SpecialDayRec where
  id : Nat
  userId : Nat
  title : String
  date : PyDate
  type : String
  repeatYearly : Bool
  notifyDaysBefore : Int
  createdAt : PyDate
deriving DecidableEq, Repr

/-- An HTTP error raised via `HTTPException` (status code and detail). -/
structure HErr where
  code : Nat
  detail : String
deriving DecidableEq, Repr

/-- `ValueError` from an invalid `date(...)` construction inside a route
handler surfaces as an unhandled 500 server error. -/
def dateValueError : HErr := ⟨500, "ValueError: day is out of range for month"⟩

def ofOptionDate (o : Option PyDate) : Except HErr PyDate :=
  match o with
  | some d => .ok d
  | none => .error dateValueError

/-- An element of the JSON list returned by the upcoming view. -/
structure UpcomingItem where
  id : Nat
  title : String
  date : PyDate
  type : String
  repeatYearly : Bool
  notifyDaysBefore : Int
  daysUntil : Int
  originalDate : PyDate
deriving DecidableEq, Repr

/-- Loop body of `get_upcoming_special_days`: for each stored special day,
construct this year's occurrence of its month/day (raising on an invalid
date), advance to next year when it has passed and `repeat_yearly` is set,
and keep it when `today <= occurrence <= future_date`. -/
def buildUpcoming (today futureDate : PyDate) :
    List SpecialDayRec → Except HErr (List UpcomingItem)
  | [] => .ok []
  | sd :: rest => do
      let thisYearDate ← ofOptionDate (mkDate today.year sd.date.month sd.date.day)
      let occ ←
        if pyLt thisYearDate today ∧ sd.repeatYearly then
          ofOptionDate (mkDate (today.year + 1) sd.date.month sd.date.day)
        else .ok thisYearDate
      let restItems ← buildUpcoming today futureDate rest
      if pyLe today occ ∧ pyLe occ futureDate then
        .ok (⟨sd.id, sd.title, occ, sd.type, sd.repeatYearly, sd.notifyDaysBefore,
              (toOrdinal occ : Int) - (toOrdinal today : Int), sd.date⟩ :: restItems)
      else
        .ok restItems

/-- Sort key of the final `upcoming.sort(key=lambda x: x["date"])`: ISO date
strings with zero-padded four-digit years compare lexicographically exactly
as (year, month, day) triples do. -/
def itemDateLe (a b : UpcomingItem) : Bool :=
  pyLe a.date b.date

/-- routes.py `get_upcoming_special_days` (`GET /special-days/upcoming`),
parameterised by the ambient `date.today()` and restricted to the
caller-owned rows the database query returns.  `days` is the lookahead
query parameter (default 7 in the route signature). -/
def get_upcoming_special_days (today : PyDate) (days : Nat)
    (ownedDays : List SpecialDayRec) : Except HErr (List UpcomingItem) := do
  let futureDate ← ofOptionDate (mkDate today.year today.month (today.day + days))
  let upcoming ← buildUpcoming today futureDate ownedDays
  .ok (upcoming.mergeSort itemDateLe)

/-! ### Spec-side recurrence definitions (written from the spec's words,
for comparison with the embedded route) -/

/-- Spec-side occurrence: "this year's month/day, advanced to next year's
month/day exactly when repeat_yearly is set and this year's occurrence is
strictly before today". -/
def specOccurrence (today : PyDate) (sd : SpecialDayRec) : PyDate :=
  let thisYear : PyDate := ⟨today.year, sd.date.month, sd.date.day⟩
  if pyLt thisYear today ∧ sd.repeatYearly then
    ⟨today.year + 1, sd.date.month, sd.date.day⟩
  else thisYear

/-- Spec-side membership: "today <= occurrence <= today + window days, both
bounds inclusive", with "today + window" as genuine calendar arithmetic. -/
def specUpcomingMember (today : PyDate) (window : Nat) (sd : SpecialDayRec) : Bool :=
  pyLe today (specOccurrence today sd) &&
    pyLe (specOccurrence today sd) (addDays today window)

/-- The JSON object the route appends for an included special day. -/
def itemOf (today : PyDate) (sd : SpecialDayRec) : UpcomingItem :=
  ⟨sd.id, sd.title, specOccurrence today sd, sd.type, sd.repeatYearly,
    sd.notifyDaysBefore,
    (toOrdinal (specOccurrence today sd) : Int) - (toOrdinal today : Int), sd.date⟩

/-- Candidate produced by one loop iteration when no date construction
raises: the item when the window check passes, nothing otherwise. -/
def candidate (today futureDate : PyDate) (sd : SpecialDayRec) : Option UpcomingItem :=
  if pyLe today (specOccurrence today sd) ∧ pyLe (specOccurrence today sd) futureDate then
    some (itemOf today sd)
  else none

theorem mkDate_isSome_elim {y m d : Nat} (h : (mkDate y m d).isSome) :
    mkDate y m d = some ⟨y, m, d⟩ := by
  unfold mkDate at *
  by_cases hv : (PyDate.mk y m d).valid
  · simp [hv]
  · simp [hv] at h

theorem exceptBindOk {ε α β : Type} (a : α) (f : α → Except ε β) :
    (Except.ok a : Except ε α) >>= f = f a := rfl

theorem buildUpcoming_ok (today futureDate : PyDate) (sds : List SpecialDayRec)
    (hcons : ∀ sd ∈ sds, (mkDate today.year sd.date.month sd.date.day).isSome ∧
      (mkDate (today.year + 1) sd.date.month sd.date.day).isSome) :
    buildUpcoming today futureDate sds =
      .ok (sds.filterMap (candidate today futureDate)) := by
  induction sds with
  | nil => rfl
  | cons sd rest ih =>
      obtain ⟨h1, h2⟩ := hcons sd (List.mem_cons_self sd rest)
      have hrest : ∀ s ∈ rest, (mkDate today.year s.date.month s.date.day).isSome ∧
          (mkDate (today.year + 1) s.date.month s.date.day).isSome :=
        fun s hs => hcons s (List.mem_cons_of_mem sd hs)
      have hspec : specOccurrence today sd =
          if pyLt ⟨today.year, sd.date.month, sd.date.day⟩ today ∧ sd.repeatYearly then
            ⟨today.year + 1, sd.date.month, sd.date.day⟩
          else ⟨today.year, sd.date.month, sd.date.day⟩ := rfl
      simp only [buildUpcoming, mkDate_isSome_elim h1, ofOptionDate, exceptBindOk,
        List.filterMap_cons]
      by_cases hadv : pyLt ⟨today.year, sd.date.month, sd.date.day⟩ today ∧ sd.repeatYearly
      · rw [if_pos hadv]
        simp only [mkDate_isSome_elim h2, ofOptionDate, exceptBindOk, ih hrest]
        by_cases hmem : pyLe today ⟨today.year + 1, sd.date.month, sd.date.day⟩ ∧
            pyLe ⟨today.year + 1, sd.date.month, sd.date.day⟩ futureDate
        · rw [if_pos hmem]
          simp [candidate, hspec, if_pos hadv, hmem, itemOf]
        · rw [if_neg hmem]
          simp [candidate, hspec, if_pos hadv, hmem, itemOf]
      · rw [if_neg hadv]
        simp only [exceptBindOk, ih hrest]
        by_cases hmem : pyLe today ⟨today.year, sd.date.month, sd.date.day⟩ ∧
            pyLe ⟨today.year, sd.date.month, sd.date.day⟩ futureDate
        · rw [if_pos hmem]
          simp [candidate, hspec, if_neg hadv, hmem, itemOf]
        · rw [if_neg hmem]
          simp [candidate, hspec, if_neg hadv, hmem, itemOf]

theorem candidate_eq_some {today futureDate : PyDate} {sd : SpecialDayRec}
    {it : UpcomingItem} (h : candidate today futureDate sd = some it) :
    it = itemOf today sd ∧ (pyLe today (specOccurrence today sd) ∧
      pyLe (specOccurrence today sd) futureDate) := by
  unfold candidate at h
  split at h
  · next hc => exact ⟨by injection h with h; exact h.symm, hc⟩
  · exact absurd h (by simp)

/-- Claim C2 (corrected): provided today's day-of-month plus the window
does not exceed the length of today's month (the route's
`date(today.year, today.month, today.day + days)` raises otherwise) and
every stored month/day is constructible in this and next year (Feb 29 onto
a non-leap year raises, claim C3), the upcoming view succeeds and contains
a special day exactly when its computed occurrence lies in the inclusive
window [today, today + window]. -/
theorem upcoming_membership (today : PyDate) (days : Nat) (sds : List SpecialDayRec)
    (htoday : today.valid)
    (hwin : today.day + days ≤ daysInMonth today.year today.month)
    (hcons : ∀ sd ∈ sds, (mkDate today.year sd.date.month sd.date.day).isSome ∧
      (mkDate (today.year + 1) sd.date.month sd.date.day).isSome)
    (hids : (sds.map SpecialDayRec.id).Nodup) :
    ∃ l, get_upcoming_special_days today days sds = .ok l ∧
      ∀ sd ∈ sds, ((∃ it ∈ l, it.id = sd.id) ↔ specUpcomingMember today days sd = true) := by
  obtain ⟨hy1, hy2, hm1, hm2, hd1, hd2⟩ := htoday
  have hdays1 : 1 ≤ today.day + days := by omega
  have hfdvalid : (PyDate.mk today.year today.month (today.day + days)).valid :=
    ⟨hy1, hy2, hm1, hm2, hdays1, hwin⟩
  have hfd : mkDate today.year today.month (today.day + days) =
      some ⟨today.year, today.month, today.day + days⟩ := by
    unfold mkDate; rw [if_pos hfdvalid]
  have hadd : addDays today days = ⟨today.year, today.month, today.day + days⟩ :=
    addDays_within_month today.year today.month today.day days hwin
  refine ⟨(sds.filterMap
      (candidate today ⟨today.year, today.month, today.day + days⟩)).mergeSort itemDateLe,
    ?_, ?_⟩
  · unfold get_upcoming_special_days
    rw [hfd]
    simp only [ofOptionDate, exceptBindOk,
      buildUpcoming_ok today ⟨today.year, today.month, today.day + days⟩ sds hcons]
  · intro sd hsd
    rw [specUpcomingMember, ← hadd] at *
    constructor
    · rintro ⟨it, hit, hid⟩
      rw [List.mem_mergeSort, List.mem_filterMap] at hit
      obtain ⟨sd', hsd', hcand⟩ := hit
      obtain ⟨hit_eq, hcond⟩ := candidate_eq_some hcand
      have hid' : sd'.id = sd.id := by
        rw [hit_eq] at hid; exact hid
      have : sd' = sd :=
        List.inj_on_of_nodup_map hids hsd' hsd hid'
      subst this
      simp only [Bool.and_eq_true]
      exact ⟨hcond.1, hcond.2⟩
    · intro hmem
      simp only [Bool.and_eq_true] at hmem
      refine ⟨itemOf today sd, ?_, rfl⟩
      rw [List.mem_mergeSort, List.mem_filterMap]
      exact ⟨sd, hsd, by unfold candidate; rw [if_pos ⟨hmem.1, hmem.2⟩]⟩

theorem mkDate_feb29_nonleap (y : Nat) (hleap : isLeapYear y = false) :
    mkDate y 2 29 = none := by
  unfold mkDate
  rw [if_neg]
  intro hv
  obtain ⟨_, _, _, _, _, hd⟩ := hv
  simp [daysInMonth, hleap] at hd

/-- Claim C3 (confirmed): for a special day stored as month=2, day=29, the
route's naive `date(today.year, 2, 29)` construction raises when the
reference year is not a leap year, so the upcoming operation is partial —
its error branch is reachable — on this input (shown with a future-date
construction that itself succeeds). -/
theorem upcoming_feb29_raises (today : PyDate) (days : Nat) (sd : SpecialDayRec)
    (hm : sd.date.month = 2) (hd : sd.date.day = 29)
    (hleap : isLeapYear today.year = false)
    (hfd : (mkDate today.year today.month (today.day + days)).isSome) :
    get_upcoming_special_days today days [sd] = .error dateValueError := by
  obtain ⟨fd, hfd'⟩ := Option.isSome_iff_exists.mp hfd
  unfold get_upcoming_special_days
  rw [hfd']
  simp only [ofOptionDate, exceptBindOk, buildUpcoming]
  rw [hm, hd, mkDate_feb29_nonleap today.year hleap]
  rfl

/-- The spec's §8 recurrence example: a special day dated 2023-03-10 with
repeat_yearly. -/
def specExampleDay : SpecialDayRec :=
  ⟨1, 1, "example", ⟨2023, 3, 10⟩, "anniversary", true, 0, ⟨2024, 1, 1⟩⟩

/-- A special day stored as Feb 29 of a leap year. -/
def feb29Day : SpecialDayRec :=
  ⟨1, 1, "leap", ⟨2024, 2, 29⟩, "anniversary", true, 0, ⟨2024, 1, 1⟩⟩

/-- Counterexample to claim C2 as stated: at today = 2024-03-28 with the
default window 7, the route computes `date(2024, 3, 35)`, which raises, so
the request fails with a 500 error and no view is produced — although the
claim's window membership holds for an April 1 special day
(2024-04-01 lies in [2024-03-28, 2024-04-04]). -/
theorem upcoming_window_overflow_cex :
    get_upcoming_special_days ⟨2024, 3, 28⟩ 7
        [⟨1, 1, "trip", ⟨2015, 4, 1⟩, "anniversary", true, 0, ⟨2024, 1, 1⟩⟩] =
      .error dateValueError ∧
    specUpcomingMember ⟨2024, 3, 28⟩ 7
        ⟨1, 1, "trip", ⟨2015, 4, 1⟩, "anniversary", true, 0, ⟨2024, 1, 1⟩⟩ = true :=
  ⟨rfl, by decide⟩

/-- Witness for `upcoming_membership` at the spec's own example: today =
2024-03-05, window 7, special day dated 2023-03-10. -/
theorem upcoming_membership_witness :
    ∃ l, get_upcoming_special_days ⟨2024, 3, 5⟩ 7 [specExampleDay] = .ok l ∧
      ∀ sd ∈ [specExampleDay], ((∃ it ∈ l, it.id = sd.id) ↔
        specUpcomingMember ⟨2024, 3, 5⟩ 7 sd = true) :=
  upcoming_membership ⟨2024, 3, 5⟩ 7 [specExampleDay] (by decide) (by decide)
    (by decide) (by decide)

/-- Witness for `upcoming_feb29_raises`: today = 2025-01-15 (2025 is not a
leap year) with window 7 and a stored Feb 29 special day. -/
theorem upcoming_feb29_raises_witness :
    get_upcoming_special_days ⟨2025, 1, 15⟩ 7 [feb29Day] = .error dateValueError :=
  upcoming_feb29_raises ⟨2025, 1, 15⟩ 7 feb29Day rfl rfl (by decide) (by decide)

/-! ## Date-string parsing

Model of `date.fromisoformat` / `datetime.strptime(s, "%Y-%m-%d")` on the
canonical zero-padded `YYYY-MM-DD` form both routes require: split on `-`,
three all-digit fields of widths 4/2/2, then the `date` constructor
(which raises — here `none` — on out-of-range values). -/

def splitStep (sep c : Char) (acc : List (List Char)) : List (List Char) :=
  match acc with
  | [] => [[c]]
  | a :: rest => if c = sep then [] :: a :: rest else (c :: a) :: rest

def splitOnChar (sep : Char) (s : List Char) : List (List Char) :=
  s.foldr (splitStep sep) [[]]

def digitsToNat (cs : List Char) : Option Nat :=
  if cs ≠ [] ∧ cs.all (·.isDigit) then
    some (cs.foldl (fun n c => n * 10 + (c.toNat - 48)) 0)
  else none

def parseYmd (s : String) : Option PyDate :=
  match splitOnChar '-' s.data with
  | [ys, ms, ds] =>
      if ys.length = 4 ∧ ms.length = 2 ∧ ds.length = 2 then
        match digitsToNat ys, digitsToNat ms, digitsToNat ds with
        | some y, some m, some d => mkDate y m d
        | _, _, _ => none
      else none
  | _ => none

/-! ## Goals (models.py `Goal`, routes.py `update_goal` / `delete_goal` /
`get_goals`) -/

/-- A row of the `goals` table. -/
structure GoalRec where
  id : Nat
  userId : Nat
  text : String
  completed : Bool
  completedAt : Option PyDate
  weekYear : Option Int
  weekIndex : Option Int
  createdAt : PyDate
deriving DecidableEq, Repr

/-- The `GoalUpdate` request body: every field optional (`None` = absent). -/
structure GoalUpdate where
  text : Option String
  completed : Option Bool
  completedAt : Option String
  weekYear : Option Int
  weekIndex : Option Int
deriving DecidableEq, Repr

/-- 404 detail of update_goal / delete_goal (source detail is Chinese for
"goal does not exist"); one shared constant in the source for both the
absent-id and the foreign-owner case. -/
def goalNotFound : HErr := ⟨404, "goal not found"⟩

/-- 400 detail for an unparsable YYYY-MM-DD value. -/
def invalidDateErr : HErr := ⟨400, "invalid date format, use YYYY-MM-DD"⟩

/-- update_goal block `if goal_update.text is not None: ...`. -/
def updText (g : GoalRec) (u : GoalUpdate) : GoalRec :=
  match u.text with
  | some t => { g with text := t }
  | none => g

/-- update_goal block `if goal_update.completed is not None: ...`:
set the flag; on true with no prior completion date stamp today; on false
clear the completion date. -/
def updCompleted (today : PyDate) (g : GoalRec) (u : GoalUpdate) : GoalRec :=
  match u.completed with
  | some c =>
      let gc := { g with completed := c }
      if c ∧ gc.completedAt = none then { gc with completedAt := some today }
      else if ¬c then { gc with completedAt := none }
      else gc
  | none => g

/-- update_goal block `if goal_update.completed_at is not None: ...`:
parse and store the explicitly supplied completion date, raising 400 on a
malformed value.  In the source this block runs after the completed-flag
block. -/
def updCompletedAt (g : GoalRec) (u : GoalUpdate) : Except HErr GoalRec :=
  match u.completedAt with
  | some s =>
      match parseYmd s with
      | some d => .ok { g with completedAt := some d }
      | none => .error invalidDateErr
  | none => .ok g

/-- update_goal blocks for `week_year` / `week_index`. -/
def updWeek (g : GoalRec) (u : GoalUpdate) : GoalRec :=
  let g1 := match u.weekYear with
    | some w => { g with weekYear := some w }
    | none => g
  match u.weekIndex with
  | some w => { g1 with weekIndex := some w }
  | none => g1

/-- The field-update portion of routes.py `update_goal`, in source order:
text, completed (with completion-date side effects), completed_at,
week_year, week_index.  An error means the request aborts with 400 and
nothing is committed. -/
def applyGoalUpdate (today : PyDate) (g : GoalRec) (u : GoalUpdate) :
    Except HErr GoalRec :=
  (updCompletedAt (updCompleted today (updText g u) u) u).map (fun g3 => updWeek g3 u)

/-- Replace the first list element satisfying `p` (the ORM mutates the row
`.first()` returned; ids are primary keys). -/
def replaceFirst (p : α → Bool) (a : α) : List α → List α
  | [] => []
  | x :: xs => if p x then a :: xs else x :: replaceFirst p a xs

/-- routes.py `update_goal` (`PUT /goals/{goal_id}`): look up the goal by
(id, owner); absent or foreign rows alike yield the same 404; otherwise
apply the field updates and commit. -/
def update_goal (today : PyDate) (db : List GoalRec) (uid gid : Nat)
    (u : GoalUpdate) : Except HErr (List GoalRec) :=
  match db.find? (fun r => r.id == gid && r.userId == uid) with
  | none => .error goalNotFound
  | some g =>
      (applyGoalUpdate today g u).map
        (fun g' => replaceFirst (fun r => r.id == gid && r.userId == uid) g' db)

/-- routes.py `delete_goal` (`DELETE /goals/{goal_id}`). -/
def delete_goal (db : List GoalRec) (uid gid : Nat) : Except HErr (List GoalRec) :=
  match db.find? (fun r => r.id == gid && r.userId == uid) with
  | none => .error goalNotFound
  | some _ => .ok (db.eraseP (fun r => r.id == gid && r.userId == uid))

/-- routes.py `get_goals` (`GET /goals`): only rows owned by the caller. -/
def get_goals (db : List GoalRec) (uid : Nat) : List GoalRec :=
  db.filter (fun r => r.userId == uid)

/-! ## Special-day update/delete (routes.py `update_special_day` /
`delete_special_day` / `get_special_days`) -/

/-- The `SpecialDayUpdate` request body: every field optional. -/
structure SpecialDayUpdate where
  title : Option String
  date : Option String
  type : Option String
  repeatYearly : Option Bool
  notifyDaysBefore : Option Int
deriving DecidableEq, Repr

/-- 404 detail shared by update_special_day and delete_special_day
("Special day not found" in the source), one constant for both the
absent-id and the foreign-owner case. -/
def specialDayNotFound : HErr := ⟨404, "Special day not found"⟩

/-- update_special_day block for `title`. -/
def sdUpdTitle (sd : SpecialDayRec) (u : SpecialDayUpdate) : SpecialDayRec :=
  match u.title with
  | some t => { sd with title := t }
  | none => sd

/-- update_special_day block for `date`: parse and store, 400 on a
malformed value. -/
def sdUpdDate (sd : SpecialDayRec) (u : SpecialDayUpdate) : Except HErr SpecialDayRec :=
  match u.date with
  | some s =>
      match parseYmd s with
      | some d => .ok { sd with date := d }
      | none => .error invalidDateErr
  | none => .ok sd

/-- update_special_day blocks for `type`, `repeat_yearly`,
`notify_days_before`. -/
def sdUpdRest (sd : SpecialDayRec) (u : SpecialDayUpdate) : SpecialDayRec :=
  let s1 := match u.type with
    | some t => { sd with type := t }
    | none => sd
  let s2 := match u.repeatYearly with
    | some b => { s1 with repeatYearly := b }
    | none => s1
  match u.notifyDaysBefore with
  | some n => { s2 with notifyDaysBefore := n }
  | none => s2

/-- Field-update portion of routes.py `update_special_day`, in source
order: title, date, type, repeat_yearly, notify_days_before. -/
def applySpecialDayUpdate (sd : SpecialDayRec) (u : SpecialDayUpdate) :
    Except HErr SpecialDayRec :=
  (sdUpdDate (sdUpdTitle sd u) u).map (fun s2 => sdUpdRest s2 u)

/-- routes.py `update_special_day` (`PUT /special-days/{special_day_id}`). -/
def update_special_day (db : List SpecialDayRec) (uid sid : Nat)
    (u : SpecialDayUpdate) : Except HErr (List SpecialDayRec) :=
  match db.find? (fun r => r.id == sid && r.userId == uid) with
  | none => .error specialDayNotFound
  | some sd =>
      (applySpecialDayUpdate sd u).map
        (fun sd' => replaceFirst (fun r => r.id == sid && r.userId == uid) sd' db)

/-- routes.py `delete_special_day` (`DELETE /special-days/{special_day_id}`). -/
def delete_special_day (db : List SpecialDayRec) (uid sid : Nat) :
    Except HErr (List SpecialDayRec) :=
  match db.find? (fun r => r.id == sid && r.userId == uid) with
  | none => .error specialDayNotFound
  | some _ => .ok (db.eraseP (fun r => r.id == sid && r.userId == uid))

/-- routes.py `get_special_days` (`GET /special-days`): only caller-owned
rows. -/
def get_special_days (db : List SpecialDayRec) (uid : Nat) : List SpecialDayRec :=
  db.filter (fun r => r.userId == uid)

/-! ## Python string primitives used by the retained-image URL handling

`str.replace` scans left to right, replacing non-overlapping occurrences.
The recursion consumes at least one character per step, so `s.length` is
enough fuel; the fuel argument only makes the recursion structural. -/

def replaceGo (pat rep : List Char) : Nat → List Char → List Char
  | _, [] => []
  | 0, s => s
  | fuel + 1, c :: rest =>
      if pat.isPrefixOf (c :: rest) ∧ pat ≠ [] then
        rep ++ replaceGo pat rep fuel ((c :: rest).drop pat.length)
      else c :: replaceGo pat rep fuel rest

/-- Python `str.replace(pat, rep)` on character lists.  An empty pattern
makes Python insert the replacement before every character and at the
end. -/
def pyReplace (s pat rep : List Char) : List Char :=
  if pat = [] then rep ++ s.foldr (fun c acc => c :: (rep ++ acc)) []
  else replaceGo pat rep s.length s

theorem replaceGo_nil (pat rep : List Char) (f : Nat) :
    replaceGo pat rep f [] = [] := by
  cases f <;> rfl

theorem replaceGo_fuel (pat rep : List Char) :
    ∀ (f1 f2 : Nat) (s : List Char), s.length ≤ f1 → s.length ≤ f2 →
      replaceGo pat rep f1 s = replaceGo pat rep f2 s := by
  intro f1
  induction f1 with
  | zero =>
      intro f2 s h1 _
      have : s = [] := List.length_eq_zero.mp (Nat.le_zero.mp h1)
      subst this
      rw [replaceGo_nil, replaceGo_nil]
  | succ f1' ih =>
      intro f2 s h1 h2
      cases s with
      | nil => rw [replaceGo_nil, replaceGo_nil]
      | cons c rest =>
          cases f2 with
          | zero => simp at h2
          | succ f2' =>
              simp only [replaceGo]
              by_cases hc : pat.isPrefixOf (c :: rest) ∧ pat ≠ []
              · rw [if_pos hc, if_pos hc]
                have hp : 1 ≤ pat.length := List.length_pos.mpr hc.2
                have hlen : ((c :: rest).drop pat.length).length ≤ f1' := by
                  simp only [List.length_drop, List.length_cons] at *
                  omega
                have hlen2 : ((c :: rest).drop pat.length).length ≤ f2' := by
                  simp only [List.length_drop, List.length_cons] at *
                  omega
                rw [ih f2' _ hlen hlen2]
              · rw [if_neg hc, if_neg hc]
                have hr1 : rest.length ≤ f1' := by
                  simp only [List.length_cons] at h1; omega
                have hr2 : rest.length ≤ f2' := by
                  simp only [List.length_cons] at h2; omega
                rw [ih f2' rest hr1 hr2]

theorem pyReplace_cons_of_no_match {pat : List Char} (rep : List Char)
    {c : Char} {rest : List Char} (h : ¬ pat <+: (c :: rest)) :
    pyReplace (c :: rest) pat rep = c :: pyReplace rest pat rep := by
  have hne : pat ≠ [] := by
    intro he; subst he; exact h (List.nil_prefix)
  have hnc : ¬ (pat.isPrefixOf (c :: rest) = true ∧ pat ≠ []) :=
    fun hc => h (List.isPrefixOf_iff_prefix.mp hc.1)
  simp only [pyReplace, if_neg hne, List.length_cons, replaceGo, if_neg hnc]

theorem pyReplace_head_match {pat : List Char} (rep t : List Char)
    (hne : pat ≠ []) :
    pyReplace (pat ++ t) pat rep = rep ++ pyReplace t pat rep := by
  obtain ⟨c, pat', rfl⟩ : ∃ c pat', pat = c :: pat' := by
    cases pat with
    | nil => exact absurd rfl hne
    | cons c pat' => exact ⟨c, pat', rfl⟩
  simp only [pyReplace, if_neg hne]
  have hcons : (c :: pat') ++ t = c :: (pat' ++ t) := rfl
  rw [hcons]
  have hlen : (c :: (pat' ++ t)).length = (pat' ++ t).length + 1 := rfl
  rw [hlen]
  simp only [replaceGo]
  rw [if_pos]
  · have hdrop : (c :: (pat' ++ t)).drop (c :: pat').length = t := by
      simp only [List.length_cons, List.drop_succ_cons]
      exact List.drop_left pat' t
    rw [hdrop]
    congr 1
    apply replaceGo_fuel
    · simp [List.length_append]
    · exact Nat.le_refl _
  · constructor
    · exact List.isPrefixOf_iff_prefix.mpr (by rw [← hcons]; exact List.prefix_append _ _)
    · exact hne

theorem pyReplace_head_notMem {c : Char} {pat' s : List Char} (rep : List Char)
    (h : c ∉ s) :
    pyReplace s (c :: pat') rep = s := by
  induction s with
  | nil => rfl
  | cons d rest ih =>
      have hcd : c ≠ d := fun he => h (he ▸ List.mem_cons_self d rest)
      have hnp : ¬ (c :: pat') <+: (d :: rest) := by
        intro hp
        obtain ⟨ts, hts⟩ := hp
        have : c = d := by
          have := congrArg (fun l => l.head?) hts
          simpa using this
        exact hcd this
      rw [pyReplace_cons_of_no_match rep hnp,
        ih (fun hm => h (List.mem_cons_of_mem d hm))]

theorem pyReplace_append_of_no_occurrence {pat : List Char} (rep : List Char) :
    ∀ (a s : List Char), (∀ i < a.length, ¬ pat <+: ((a ++ s).drop i)) →
      pyReplace (a ++ s) pat rep = a ++ pyReplace s pat rep := by
  intro a
  induction a with
  | nil => intro s _; rfl
  | cons c a' ih =>
      intro s h
      have h0 : ¬ pat <+: (c :: (a' ++ s)) := by
        have := h 0 (Nat.succ_pos _)
        simpa using this
      have hcons : (c :: a') ++ s = c :: (a' ++ s) := rfl
      rw [hcons, pyReplace_cons_of_no_match rep h0]
      rw [ih s (fun i hi => by
        have := h (i + 1) (by simpa using Nat.succ_lt_succ hi)
        simpa using this)]
      rfl

/-! ## Retained-image URL → thumbnail URL (routes.py save_event, keep_images
loop) -/

/-- Python substring test `pat in s`: `pat` is a prefix of some suffix. -/
def containsSub (pat : List Char) : List Char → Bool
  | [] => pat.isEmpty
  | c :: rest => pat.isPrefixOf (c :: rest) || containsSub pat rest

/-- Python `img_url.split('/')[-1]` (split never returns an empty list). -/
def lastSegment (s : List Char) : List Char :=
  (splitOnChar '/' s).getLastD []

/-- Python `filename.rsplit('.', 1)[0]`: everything before the last dot
(the source only calls this when the name contains a dot). -/
def dropLastExt (f : List Char) : List Char :=
  ((f.reverse.dropWhile (· ≠ '.')).drop 1).reverse

def originalsSeg : List Char := "/originals/".data

def thumbnailsSeg : List Char := "/thumbnails/".data

def thumbSuffix : List Char := "_thumb.jpg".data

/-- The retained-URL → thumbnail-URL conversion inlined in the
`keep_images` loop of routes.py `save_event`: when the URL contains the
`/originals/` segment, take the last `/`-separated segment as the
filename, form `<stem>_thumb.jpg`, then apply two global
`str.replace` passes (`/originals/` → `/thumbnails/`, filename →
thumb filename); otherwise reuse the URL verbatim. -/
def deriveThumbUrl (imgUrl : List Char) : List Char :=
  if containsSub originalsSeg imgUrl then
    let filename := lastSegment imgUrl
    let nameWithoutExt := if '.' ∈ filename then dropLastExt filename else filename
    let thumbFilename := nameWithoutExt ++ thumbSuffix
    pyReplace (pyReplace imgUrl originalsSeg thumbnailsSeg) filename thumbFilename
  else imgUrl

theorem containsSub_append_left (pat s a : List Char)
    (h : containsSub pat s = true) : containsSub pat (a ++ s) = true := by
  induction a with
  | nil => exact h
  | cons c a' ih =>
      show containsSub pat (c :: (a' ++ s)) = true
      simp only [containsSub, ih, Bool.or_true]

theorem containsSub_self_append (pat t : List Char) :
    containsSub pat (pat ++ t) = true := by
  cases pat with
  | nil =>
      cases t with
      | nil => rfl
      | cons c rest => simp [containsSub, List.isPrefixOf_iff_prefix]
  | cons c p' =>
      show containsSub (c :: p') (c :: (p' ++ t)) = true
      simp only [containsSub, Bool.or_eq_true]
      left
      exact List.isPrefixOf_iff_prefix.mpr (List.prefix_append (c :: p') t)

theorem splitOnChar_no_sep (sep : Char) (f : List Char) (h : sep ∉ f) :
    splitOnChar sep f = [f] := by
  induction f with
  | nil => rfl
  | cons c rest ih =>
      have hc : ¬ c = sep := fun he => h (he ▸ List.mem_cons_self c rest)
      show splitStep sep c (splitOnChar sep rest) = [c :: rest]
      rw [ih (fun hm => h (List.mem_cons_of_mem c hm))]
      simp [splitStep, hc]

theorem foldr_splitStep_getLastD (sep : Char) (a : List Char)
    (acc : List (List Char)) (h2 : 2 ≤ acc.length) :
    (a.foldr (splitStep sep) acc).getLastD [] = acc.getLastD [] ∧
      2 ≤ (a.foldr (splitStep sep) acc).length := by
  induction a with
  | nil => exact ⟨rfl, h2⟩
  | cons c a' ih =>
      obtain ⟨hl, hlen⟩ := ih
      show (splitStep sep c (a'.foldr (splitStep sep) acc)).getLastD [] = _ ∧
        2 ≤ (splitStep sep c (a'.foldr (splitStep sep) acc)).length
      obtain ⟨x, y, rest, hxy⟩ : ∃ x y rest,
          a'.foldr (splitStep sep) acc = x :: y :: rest := by
        match hm : a'.foldr (splitStep sep) acc with
        | [] => rw [hm] at hlen; simp at hlen
        | [x] => rw [hm] at hlen; simp at hlen
        | x :: y :: rest => exact ⟨x, y, rest, rfl⟩
      rw [hxy] at hl
      rw [hxy]
      simp only [splitStep]
      by_cases hc : c = sep
      · rw [if_pos hc]
        refine ⟨?_, by simp⟩
        rw [List.getLastD_cons]
        exact hl
      · rw [if_neg hc]
        refine ⟨?_, by simp⟩
        rw [List.getLastD_cons] at hl
        rw [List.getLastD_cons, List.getLastD_cons]
        rw [List.getLastD_cons] at hl
        exact hl

theorem lastSegment_std (f : List Char) (hslash : '/' ∉ f) :
    lastSegment ("/static/originals/".data ++ f) = f := by
  have hdecomp : "/static/originals/".data ++ f =
      "/static/originals".data ++ ('/' :: f) := by
    have : "/static/originals/".data = "/static/originals".data ++ ['/'] := by decide
    rw [this, List.append_assoc]
    rfl
  rw [hdecomp]
  unfold lastSegment splitOnChar
  rw [List.foldr_append]
  have hinner : List.foldr (splitStep '/') [[]] ('/' :: f) = [[], f] := by
    show splitStep '/' '/' (List.foldr (splitStep '/') [[]] f) = [[], f]
    have : List.foldr (splitStep '/') [[]] f = [f] := splitOnChar_no_sep '/' f hslash
    rw [this]
    simp [splitStep]
  rw [hinner]
  have := foldr_splitStep_getLastD '/' "/static/originals".data [[], f] (by simp)
  rw [this.1]
  rfl

theorem prefix_append_iff_of_length_le {pat x : List Char} (y : List Char)
    (h : pat.length ≤ x.length) : pat <+: x ++ y ↔ pat <+: x := by
  constructor
  · intro hp
    rw [List.prefix_iff_eq_take] at hp ⊢
    rw [List.take_append_of_le_length h] at hp
    exact hp
  · intro hp
    exact hp.trans (List.prefix_append x y)

theorem prefix_of_self_append {t f : List Char} (hlt : t.length < f.length)
    (h : f <+: t ++ f) : t <+: f := by
  rw [List.prefix_iff_eq_take, List.take_append_eq_append_take,
    List.take_of_length_le (Nat.le_of_lt hlt)] at h
  exact ⟨f.take (f.length - t.length), h.symm⟩

theorem not_prefix_cross {f t : List Char} (hdotf : '.' ∈ f) (hdott : '.' ∉ t)
    (hsf : '/' ∉ f) (hst : '/' ∈ t) : ¬ f <+: t ++ f := by
  intro h
  rcases le_or_lt f.length t.length with hle | hlt
  · exact hdott (((prefix_append_iff_of_length_le f hle).mp h).subset hdotf)
  · exact hsf ((prefix_of_self_append hlt h).subset hst)

theorem pyReplace_nil {pat : List Char} (rep : List Char) (hne : pat ≠ []) :
    pyReplace [] pat rep = [] := by
  unfold pyReplace
  rw [if_neg hne]
  exact replaceGo_nil pat rep _

theorem replace_originals_pass (f : List Char) (hslash : '/' ∉ f) :
    pyReplace ("/static/originals/".data ++ f) originalsSeg thumbnailsSeg =
      "/static/thumbnails/".data ++ f := by
  have hdecomp : "/static/originals/".data ++ f =
      "/static".data ++ (originalsSeg ++ f) := by
    rw [← List.append_assoc]
    have : "/static/originals/".data = "/static".data ++ originalsSeg := by decide
    rw [this]
  rw [hdecomp,
    pyReplace_append_of_no_occurrence thumbnailsSeg "/static".data (originalsSeg ++ f) ?hocc]
  case hocc =>
    intro i hi
    have h7 : ("/static".data).length = 7 := by decide
    rw [h7] at hi
    rw [← hdecomp]
    rw [List.drop_append_of_le_length (show i ≤ ("/static/originals/".data).length by
      have h18 : ("/static/originals/".data).length = 18 := by decide
      omega)]
    rw [prefix_append_iff_of_length_le f (by
      rw [List.length_drop]
      have h18 : ("/static/originals/".data).length = 18 := by decide
      have h11 : originalsSeg.length = 11 := by decide
      omega)]
    interval_cases i <;> decide
  rw [pyReplace_head_match thumbnailsSeg f (by decide)]
  have hseg : originalsSeg = '/' :: "originals/".data := by decide
  rw [hseg, pyReplace_head_notMem thumbnailsSeg hslash]
  rw [← List.append_assoc]
  have : "/static".data ++ thumbnailsSeg = "/static/thumbnails/".data := by decide
  rw [this]

theorem replace_filename_pass (f rep : List Char) (hne : f ≠ [])
    (hslash : '/' ∉ f) (hdot : '.' ∈ f) :
    pyReplace ("/static/thumbnails/".data ++ f) f rep =
      "/static/thumbnails/".data ++ rep := by
  rw [pyReplace_append_of_no_occurrence rep "/static/thumbnails/".data f ?hocc]
  case hocc =>
    intro i hi
    rw [List.drop_append_of_le_length (Nat.le_of_lt hi)]
    have h19 : ("/static/thumbnails/".data).length = 19 := by decide
    rw [h19] at hi
    interval_cases i <;>
      exact not_prefix_cross hdot (by decide) hslash (by decide)
  have hff : pyReplace f f rep = rep := by
    have h1 := pyReplace_head_match rep ([] : List Char) hne
    rw [List.append_nil] at h1
    rw [h1, pyReplace_nil rep hne, List.append_nil]
  rw [hff]

/-- Claim C4 (corrected): the retained-URL → thumbnail-URL derivation is a
pure function of the URL string; URLs without the `/originals/` segment
pass through unchanged; and on a canonical original URL
`/static/originals/<filename>` whose filename is nonempty, contains no
slash and contains a dot, the result is
`/static/thumbnails/<stem>_thumb.jpg`.  The original claim's universal
"rewrites only the final filename" reading fails because the source
performs global substring replacement (see the counterexample). -/
theorem deriveThumbUrl_spec (f : List Char) (hne : f ≠ [])
    (hslash : '/' ∉ f) (hdot : '.' ∈ f) :
    deriveThumbUrl ("/static/originals/".data ++ f) =
      "/static/thumbnails/".data ++ (dropLastExt f ++ thumbSuffix) ∧
    ∀ url : List Char, containsSub originalsSeg url = false →
      deriveThumbUrl url = url := by
  constructor
  · have hc : containsSub originalsSeg ("/static/originals/".data ++ f) = true := by
      have hdecomp : "/static/originals/".data ++ f =
          "/static".data ++ (originalsSeg ++ f) := by
        rw [← List.append_assoc]
        have : "/static/originals/".data = "/static".data ++ originalsSeg := by decide
        rw [this]
      rw [hdecomp]
      exact containsSub_append_left _ _ _ (containsSub_self_append originalsSeg f)
    simp only [deriveThumbUrl, hc, if_true]
    rw [lastSegment_std f hslash, if_pos hdot, replace_originals_pass f hslash,
      replace_filename_pass f (dropLastExt f ++ thumbSuffix) hne hslash hdot]
  · intro url hurl
    simp [deriveThumbUrl, hurl]

/-- Counterexample to claim C4 as stated: for `/o/originals/o` the code's
global replace also rewrites the first path segment, so the result is not
"originals segment swapped + final filename rewritten"
(`/o/thumbnails/o_thumb.jpg`). -/
theorem deriveThumbUrl_global_replace_cex :
    deriveThumbUrl "/o/originals/o".data =
      "/o_thumb.jpg/thumbnails/o_thumb.jpg".data ∧
    deriveThumbUrl "/o/originals/o".data ≠ "/o/thumbnails/o_thumb.jpg".data := by
  constructor
  · decide
  · decide

/-- Witness for `deriveThumbUrl_spec` at the spec's own example filename
`abc123.jpg` and a non-matching URL. -/
theorem deriveThumbUrl_spec_witness :
    deriveThumbUrl ("/static/originals/".data ++ "abc123.jpg".data) =
      "/static/thumbnails/".data ++ (dropLastExt "abc123.jpg".data ++ thumbSuffix) ∧
    deriveThumbUrl "/uploads/img.png".data = "/uploads/img.png".data :=
  ⟨(deriveThumbUrl_spec "abc123.jpg".data (by decide) (by decide) (by decide)).1,
   (deriveThumbUrl_spec "abc123.jpg".data (by decide) (by decide) (by decide)).2
     "/uploads/img.png".data (by decide)⟩

/-! ## Entry save (routes.py `save_event`): text fields and image-path lists

The route first parses `entry_date` (rejecting bad formats with 400), looks
up or creates the `Event` row for `(user, date)`, then overwrites the text
fields and rebuilds the two image-path lists.  The embedding below starts
after date parsing and models the JSON-encoded `Text` columns by the
decoded list value (`json.dumps` is injective on lists of strings). -/

/-- A value of the parsed `keep_images` JSON list: the loop keeps only
`str` elements and skips everything else.  (An unparsable or non-list
`keep_images` payload makes the route use the empty list.) -/
inductive KeepVal where
  | str (s : List Char)
  | nonStr
deriving DecidableEq, Repr

/-- The string elements of the parsed keep list, in caller order. -/
def keptUrls (keep : List KeepVal) : List (List Char) :=
  keep.filterMap (fun v => match v with | .str s => some s | .nonStr => none)

/-- The `keep_images` loop of save_event: for each retained string URL
append it to `original_paths` and its derived thumbnail URL to
`thumbnail_paths`. -/
def keepLoop : List KeepVal → (List (List Char) × List (List Char))
  | [] => ([], [])
  | .str s :: rest => ((keepLoop rest).1.cons s, (keepLoop rest).2.cons (deriveThumbUrl s))
  | .nonStr :: rest => keepLoop rest

/-- Final image-field assignment of save_event: `original_paths` is the
processed uploads' original paths followed by the kept URLs (and
`thumbnail_paths` correspondingly); a nonempty list is stored in both
columns, an empty one clears both. -/
def computeImageFields (processed : List (List Char × List Char))
    (keep : List KeepVal) :
    Option (List (List Char)) × Option (List (List Char)) :=
  let originalPaths := processed.map Prod.fst ++ (keepLoop keep).1
  let thumbnailPaths := processed.map Prod.snd ++ (keepLoop keep).2
  if originalPaths.isEmpty then (none, none)
  else (some originalPaths, some thumbnailPaths)

/-- A row of the `events` table (models.py `Event`), with the JSON-encoded
image columns in decoded form. -/
structure EventRec where
  id : Nat
  userId : Nat
  entryDate : PyDate
  title : Option String
  content : Option String
  mood : String
  imageOriginal : Option (List (List Char))
  imageThumbnail : Option (List (List Char))
  updatedAt : PyDate
deriving DecidableEq, Repr

/-- FastAPI applies the `Form` defaults of the save_event signature: an
absent `mood` field becomes `"neutral"`. -/
def moodOf (moodParam : Option String) : String :=
  moodParam.getD "neutral"

/-- The state of the `Event` row after routes.py `save_event` commits:
find-or-create, unconditional overwrite of title/content/mood/updated_at,
and replacement of both image columns. -/
def save_event_record (today : PyDate) (existing : Option EventRec) (uid : Nat)
    (entryDate : PyDate) (title content : Option String) (mood : String)
    (processed : List (List Char × List Char)) (keep : List KeepVal) : EventRec :=
  let base := match existing with
    | some e => e
    | none =>
        { id := 0, userId := uid, entryDate := entryDate, title := none,
          content := none, mood := "neutral", imageOriginal := none,
          imageThumbnail := none, updatedAt := today }
  { base with
    title := title, content := content, mood := mood, updatedAt := today,
    imageOriginal := (computeImageFields processed keep).1,
    imageThumbnail := (computeImageFields processed keep).2 }

theorem keepLoop_eq (keep : List KeepVal) :
    keepLoop keep = (keptUrls keep, (keptUrls keep).map deriveThumbUrl) := by
  induction keep with
  | nil => rfl
  | cons v rest ih =>
      cases v with
      | str s => simp [keepLoop, keptUrls, ih, List.filterMap_cons]
      | nonStr => simp [keepLoop, keptUrls, ih, List.filterMap_cons]

/-- Claim C5 (confirmed): after every entry save the stored original and
thumbnail path lists are either both cleared (when the combined list of new
uploads and retained URLs is empty) or both present with equal length and
positional correspondence: new uploads first in upload order (each paired
with its processed thumbnail), then retained URLs in caller order (each
paired with its derived thumbnail URL). -/
theorem save_event_image_lists (today : PyDate) (existing : Option EventRec)
    (uid : Nat) (entryDate : PyDate) (title content : Option String) (mood : String)
    (processed : List (List Char × List Char)) (keep : List KeepVal) :
    (processed.map Prod.fst ++ keptUrls keep = [] →
      (save_event_record today existing uid entryDate title content mood
          processed keep).imageOriginal = none ∧
      (save_event_record today existing uid entryDate title content mood
          processed keep).imageThumbnail = none) ∧
    (processed.map Prod.fst ++ keptUrls keep ≠ [] →
      (save_event_record today existing uid entryDate title content mood
          processed keep).imageOriginal =
        some (processed.map Prod.fst ++ keptUrls keep) ∧
      (save_event_record today existing uid entryDate title content mood
          processed keep).imageThumbnail =
        some (processed.map Prod.snd ++ (keptUrls keep).map deriveThumbUrl) ∧
      (processed.map Prod.fst ++ keptUrls keep).length =
        (processed.map Prod.snd ++ (keptUrls keep).map deriveThumbUrl).length) := by
  have himg : ∀ o t, computeImageFields processed keep = (o, t) →
      (save_event_record today existing uid entryDate title content mood
        processed keep).imageOriginal = o ∧
      (save_event_record today existing uid entryDate title content mood
        processed keep).imageThumbnail = t := by
    intro o t h
    unfold save_event_record
    constructor
    · show (computeImageFields processed keep).1 = o
      rw [h]
    · show (computeImageFields processed keep).2 = t
      rw [h]
  constructor
  · intro h
    refine himg none none ?_
    unfold computeImageFields
    rw [keepLoop_eq]
    simp only [List.isEmpty_iff]
    rw [if_pos h]
  · intro h
    have hcf : computeImageFields processed keep =
        (some (processed.map Prod.fst ++ keptUrls keep),
          some (processed.map Prod.snd ++ (keptUrls keep).map deriveThumbUrl)) := by
      unfold computeImageFields
      rw [keepLoop_eq]
      simp only [List.isEmpty_iff]
      rw [if_neg h]
    obtain ⟨h1, h2⟩ := himg _ _ hcf
    refine ⟨h1, h2, ?_⟩
    simp only [List.length_append, List.length_map]

/-- Witness for `save_event_image_lists`: an empty save clears both
columns; a save with one upload and one retained URL stores two paired
two-element lists. -/
theorem save_event_image_lists_witness :
    ((save_event_record ⟨2024, 1, 15⟩ none 1 ⟨2024, 1, 15⟩ none none "neutral"
        [] []).imageOriginal = none ∧
      (save_event_record ⟨2024, 1, 15⟩ none 1 ⟨2024, 1, 15⟩ none none "neutral"
        [] []).imageThumbnail = none) ∧
    ((save_event_record ⟨2024, 1, 15⟩ none 1 ⟨2024, 1, 15⟩ none none "neutral"
        [("/static/originals/u.jpg".data, "/static/thumbnails/u_thumb.jpg".data)]
        [.str "/static/originals/k.png".data]).imageOriginal =
      some ["/static/originals/u.jpg".data, "/static/originals/k.png".data] ∧
      (save_event_record ⟨2024, 1, 15⟩ none 1 ⟨2024, 1, 15⟩ none none "neutral"
        [("/static/originals/u.jpg".data, "/static/thumbnails/u_thumb.jpg".data)]
        [.str "/static/originals/k.png".data]).imageThumbnail =
      some ["/static/thumbnails/u_thumb.jpg".data,
        deriveThumbUrl "/static/originals/k.png".data] ∧
      (2 : Nat) = 2) := by
  constructor
  · exact (save_event_image_lists ⟨2024, 1, 15⟩ none 1 ⟨2024, 1, 15⟩ none none
      "neutral" [] []).1 rfl
  · have h := (save_event_image_lists ⟨2024, 1, 15⟩ none 1 ⟨2024, 1, 15⟩ none none
      "neutral"
      [("/static/originals/u.jpg".data, "/static/thumbnails/u_thumb.jpg".data)]
      [.str "/static/originals/k.png".data]).2 (by decide)
    exact ⟨h.1, h.2.1, rfl⟩

/-- Claim C10 (confirmed): every entry save unconditionally overwrites
title, content and mood with the request's values (with the absent-mood
Form default "neutral"); prior values of these fields are never
preserved. -/
theorem save_event_overwrites_text (today : PyDate) (existing : Option EventRec)
    (uid : Nat) (entryDate : PyDate) (title content : Option String)
    (moodParam : Option String) (processed : List (List Char × List Char))
    (keep : List KeepVal) :
    (save_event_record today existing uid entryDate title content
      (moodOf moodParam) processed keep).title = title ∧
    (save_event_record today existing uid entryDate title content
      (moodOf moodParam) processed keep).content = content ∧
    (save_event_record today existing uid entryDate title content
      (moodOf moodParam) processed keep).mood = moodOf moodParam ∧
    (save_event_record today existing uid entryDate title content
      (moodOf moodParam) processed keep).updatedAt = today ∧
    moodOf none = "neutral" :=
  ⟨rfl, rfl, rfl, rfl, rfl⟩

/-! ## Image pipeline (utils.py `process_image` / `validate_image_size`)

The filesystem fragment the pipeline touches is a path-indexed map to an
abstract content marker (`none` = no file, `some 1` = partial file left by
a failing save, `some 2` = fully written file).  PIL decode/save outcomes
are external to the code under proof, so they enter as an explicit
behaviour record; the cleanup loop `for path in [...]: if exists: remove`
is unconditional removal. -/

def FS : Type := List Char → Option Nat

def fsWrite (fs : FS) (p : List Char) (v : Nat) : FS :=
  fun q => if q = p then some v else fs q

def fsRemove (fs : FS) (p : List Char) : FS :=
  fun q => if q = p then none else fs q

def fsEmpty : FS := fun _ => none

/-- Outcome of the PIL operations inside the `try` block. -/
structure ImageBehavior where
  decodeOk : Bool
  origSaveOk : Bool
  origSavePartial : Bool
  thumbSaveOk : Bool
  thumbSavePartial : Bool
deriving DecidableEq, Repr

def allowedExts : List (List Char) :=
  ["jpg".data, "jpeg".data, "png".data, "webp".data]

/-- utils.py `ext = filename.split(".")[-1].lower() if "." in filename
else ""`. -/
def extOf (filename : List Char) : List Char :=
  if '.' ∈ filename then ((splitOnChar '.' filename).getLastD []).map Char.toLower
  else []

def unsupportedFormatErr : HErr := ⟨400, "unsupported file format"⟩

def processFailErr : HErr := ⟨500, "image processing failed"⟩

def fileTooLargeErr : HErr := ⟨400, "image file too large"⟩

/-- config.py `MAX_IMAGE_SIZE_MB` default. -/
def MAX_IMAGE_SIZE_MB : Nat := 10

def originalPathOf (uniqueName ext : List Char) : List Char :=
  "uploads/originals/".data ++ uniqueName ++ '.' :: ext

def thumbPathOf (uniqueName : List Char) : List Char :=
  "uploads/thumbnails/".data ++ uniqueName ++ "_thumb.jpg".data

/-- utils.py `process_image`: format check outside the `try` block; inside
it, decode with orientation fix, save the original, then derive and save
the thumbnail; on any exception remove both target paths before raising a
500.  `uniqueName` stands for the generated `uuid4` value. -/
def process_image (fs : FS) (filename uniqueName : List Char)
    (b : ImageBehavior) : Except HErr (List Char × List Char) × FS :=
  if extOf filename ∉ allowedExts then (.error unsupportedFormatErr, fs)
  else if ¬ b.decodeOk then
    (.error processFailErr,
      fsRemove (fsRemove fs (originalPathOf uniqueName (extOf filename)))
        (thumbPathOf uniqueName))
  else if ¬ b.origSaveOk then
    (.error processFailErr,
      fsRemove (fsRemove
          (if b.origSavePartial then
            fsWrite fs (originalPathOf uniqueName (extOf filename)) 1
          else fs)
          (originalPathOf uniqueName (extOf filename)))
        (thumbPathOf uniqueName))
  else if ¬ b.thumbSaveOk then
    (.error processFailErr,
      fsRemove (fsRemove
          (if b.thumbSavePartial then
            fsWrite (fsWrite fs (originalPathOf uniqueName (extOf filename)) 2)
              (thumbPathOf uniqueName) 1
          else fsWrite fs (originalPathOf uniqueName (extOf filename)) 2)
          (originalPathOf uniqueName (extOf filename)))
        (thumbPathOf uniqueName))
  else
    (.ok ("/static/originals/".data ++ uniqueName ++ '.' :: extOf filename,
          "/static/thumbnails/".data ++ uniqueName ++ "_thumb.jpg".data),
      fsWrite (fsWrite fs (originalPathOf uniqueName (extOf filename)) 2)
        (thumbPathOf uniqueName) 2)

/-- utils.py `validate_image_size`: measure the stream by seeking to its
end (`sizeBytes` is that measured length, not a client-declared size),
divide by 1024*1024 and compare against the MB ceiling.  The float
division by 2^20 is exact below 2^53, so exact rational arithmetic models
it. -/
def validate_image_size (sizeBytes : Nat) : Except HErr Bool :=
  if (sizeBytes : ℚ) / (1024 * 1024) > (MAX_IMAGE_SIZE_MB : ℚ) then
    .error fileTooLargeErr
  else .ok true

/-- One uploaded file in the save_event loop, with the measured stream
size and the oracle data for its processing. -/
structure UploadMeta where
  filename : List Char
  uniqueName : List Char
  sizeBytes : Nat
  behavior : ImageBehavior

/-- Per-image body of the save_event upload loop: `validate_image_size`
first, then `process_image`. -/
def handleUpload (fs : FS) (img : UploadMeta) :
    Except HErr (List Char × List Char) × FS :=
  match validate_image_size img.sizeBytes with
  | .error e => (.error e, fs)
  | .ok _ => process_image fs img.filename img.uniqueName img.behavior

theorem validate_image_size_iff (s : Nat) :
    validate_image_size s = .error fileTooLargeErr ↔
      MAX_IMAGE_SIZE_MB * 1048576 < s := by
  have hkey : ((MAX_IMAGE_SIZE_MB : ℚ) < (s : ℚ) / (1024 * 1024)) ↔
      (MAX_IMAGE_SIZE_MB * 1048576 < s) := by
    rw [lt_div_iff₀ (by norm_num : (0:ℚ) < 1024 * 1024)]
    have hcast : ((MAX_IMAGE_SIZE_MB * 1048576 : ℕ) : ℚ) =
        (MAX_IMAGE_SIZE_MB : ℚ) * (1024 * 1024) := by
      push_cast
      norm_num
    rw [← hcast, Nat.cast_lt]
  unfold validate_image_size
  by_cases h : (s : ℚ) / (1024 * 1024) > (MAX_IMAGE_SIZE_MB : ℚ)
  · rw [if_pos h]
    exact ⟨fun _ => hkey.mp h, fun _ => rfl⟩
  · rw [if_neg h]
    constructor
    · intro hbad
      exact absurd hbad (by simp)
    · intro hs
      exact absurd (hkey.mpr hs) h

theorem cleanup_spec (X fs : FS) (op tp : List Char)
    (hX : ∀ p, p ≠ op → p ≠ tp → X p = fs p) :
    (fsRemove (fsRemove X op) tp) op = none ∧
    (fsRemove (fsRemove X op) tp) tp = none ∧
    (∀ p, p ≠ op → p ≠ tp → (fsRemove (fsRemove X op) tp) p = fs p) ∧
    (fs op = none → fs tp = none → fsRemove (fsRemove X op) tp = fs) := by
  refine ⟨?_, ?_, ?_, ?_⟩
  · by_cases h : op = tp <;> simp [fsRemove, h]
  · simp [fsRemove]
  · intro p h1 h2
    simp only [fsRemove, if_neg h2, if_neg h1]
    exact hX p h1 h2
  · intro ho ht
    funext q
    by_cases h1 : q = tp
    · subst h1
      simp [fsRemove, ht]
    · by_cases h2 : q = op
      · subst h2
        simp [fsRemove, h1, ho]
      · simp only [fsRemove, if_neg h1, if_neg h2]
        exact hX q h2 h1

/-- Claim C6 (confirmed): the size guard rejects with the file-too-large
error iff the measured byte length exceeds the configured megabyte
ceiling, and in the save_event loop the rejection happens before
`process_image`, leaving the filesystem untouched. -/
theorem size_guard_spec :
    (∀ s : Nat, validate_image_size s = .error fileTooLargeErr ↔
      MAX_IMAGE_SIZE_MB * 1048576 < s) ∧
    ∀ (fs : FS) (img : UploadMeta), MAX_IMAGE_SIZE_MB * 1048576 < img.sizeBytes →
      handleUpload fs img = (.error fileTooLargeErr, fs) := by
  refine ⟨validate_image_size_iff, ?_⟩
  intro fs img h
  have hrej := (validate_image_size_iff img.sizeBytes).mpr h
  unfold handleUpload
  rw [hrej]

/-- Witness for `size_guard_spec`: one byte over the 10 MB ceiling is
rejected and writes nothing. -/
theorem size_guard_spec_witness :
    validate_image_size 10485761 = .error fileTooLargeErr ∧
    handleUpload fsEmpty ⟨"a.jpg".data, "u1".data, 10485761,
        ⟨true, true, false, true, false⟩⟩ = (.error fileTooLargeErr, fsEmpty) :=
  ⟨(size_guard_spec.1 10485761).mpr (by norm_num [MAX_IMAGE_SIZE_MB]),
   size_guard_spec.2 fsEmpty
     ⟨"a.jpg".data, "u1".data, 10485761, ⟨true, true, false, true, false⟩⟩
     (by norm_num [MAX_IMAGE_SIZE_MB])⟩

/-- Claim C7 (confirmed): when `process_image` fails after the format
check — at decode, original save, or thumbnail save — both target paths
are absent afterwards, no other path changed, and if the generated paths
were fresh beforehand the filesystem is exactly as before the call. -/
theorem process_image_rollback (fs : FS) (filename uniqueName : List Char)
    (b : ImageBehavior) (e : HErr) (fs' : FS)
    (hext : extOf filename ∈ allowedExts)
    (h : process_image fs filename uniqueName b = (.error e, fs')) :
    fs' (originalPathOf uniqueName (extOf filename)) = none ∧
    fs' (thumbPathOf uniqueName) = none ∧
    (∀ p, p ≠ originalPathOf uniqueName (extOf filename) →
      p ≠ thumbPathOf uniqueName → fs' p = fs p) ∧
    (fs (originalPathOf uniqueName (extOf filename)) = none →
      fs (thumbPathOf uniqueName) = none → fs' = fs) := by
  unfold process_image at h
  rw [if_neg (not_not_intro hext)] at h
  by_cases hdec : b.decodeOk
  · rw [if_neg (not_not_intro hdec)] at h
    by_cases hos : b.origSaveOk
    · rw [if_neg (not_not_intro hos)] at h
      by_cases hts : b.thumbSaveOk
      · rw [if_neg (not_not_intro hts)] at h
        rw [Prod.mk.injEq] at h
        exact absurd h.1 (by simp)
      · rw [if_pos hts] at h
        rw [Prod.mk.injEq] at h
        obtain ⟨-, hfs⟩ := h
        subst hfs
        refine cleanup_spec _ fs _ _ ?_
        intro p h1 h2
        by_cases hp : b.thumbSavePartial <;> simp [hp, fsWrite, h1, h2]
    · rw [if_pos hos] at h
      rw [Prod.mk.injEq] at h
      obtain ⟨-, hfs⟩ := h
      subst hfs
      refine cleanup_spec _ fs _ _ ?_
      intro p h1 h2
      by_cases hp : b.origSavePartial <;> simp [hp, fsWrite, h1]
  · rw [if_pos hdec] at h
    rw [Prod.mk.injEq] at h
    obtain ⟨-, hfs⟩ := h
    subst hfs
    exact cleanup_spec fs fs _ _ (fun p _ _ => rfl)

/-- Witness for `process_image_rollback`: a decode failure on an empty
filesystem leaves both paths absent and restores the filesystem exactly. -/
theorem process_image_rollback_witness :
    (process_image fsEmpty "a.jpg".data "u1".data
        ⟨false, true, false, true, false⟩).2
      (originalPathOf "u1".data "jpg".data) = none ∧
    (process_image fsEmpty "a.jpg".data "u1".data
        ⟨false, true, false, true, false⟩).2 = fsEmpty := by
  have h := process_image_rollback fsEmpty "a.jpg".data "u1".data
    ⟨false, true, false, true, false⟩ processFailErr
    (process_image fsEmpty "a.jpg".data "u1".data
      ⟨false, true, false, true, false⟩).2
    (by decide) rfl
  have hext : extOf "a.jpg".data = "jpg".data := by decide
  refine ⟨?_, h.2.2.2 rfl rfl⟩
  rw [← hext]
  exact h.1

theorem exceptMapOk {ε α β : Type} (f : α → β) (a : α) :
    Except.map f (Except.ok a : Except ε α) = .ok (f a) := rfl

theorem updText_completedAt (g : GoalRec) (u : GoalUpdate) :
    (updText g u).completedAt = g.completedAt := by
  cases ht : u.text <;> simp [updText, ht]

theorem updWeek_completedAt (g : GoalRec) (u : GoalUpdate) :
    (updWeek g u).completedAt = g.completedAt := by
  cases hwy : u.weekYear <;> cases hwi : u.weekIndex <;> simp [updWeek, hwy, hwi]

/-- A sample goal row: completed with a stored completion date. -/
def sampleGoal : GoalRec :=
  ⟨1, 1, "run a marathon", true, some ⟨2024, 1, 1⟩, none, none, ⟨2023, 12, 1⟩⟩

/-- A request toggling completed to false while also supplying an explicit
completed_at. -/
def toggleFalseWithDate : GoalUpdate := ⟨none, some false, some "2024-01-02", none, none⟩

/-- Counterexample to claim C1 as stated: with completed=false and an
explicit completed_at="2024-01-02" in the same request, the stored
completed_at is 2024-01-02, not null — the explicit completed_at block
runs after the toggle-clearing block, so toggle-to-false does not win. -/
theorem goal_toggle_false_cex :
    update_goal ⟨2024, 5, 1⟩ [sampleGoal] 1 1 toggleFalseWithDate =
      .ok [{ sampleGoal with completed := false, completedAt := some ⟨2024, 1, 2⟩ }] ∧
    (some (⟨2024, 1, 2⟩ : PyDate) ≠ (none : Option PyDate)) := by
  constructor
  · rfl
  · simp

/-- Claim C1 (corrected): in update_goal the completed-toggle block runs
before the explicit completed_at block.  Consequently completed=false
clears completed_at exactly when the request supplies no completed_at; an
explicitly supplied parseable completed_at in the same request wins and is
stored; and completed=true with no prior completed_at and no explicit
completed_at stamps today's date.  The committed row is the updated row. -/
theorem goal_completed_toggle (today : PyDate) (g : GoalRec) (u : GoalUpdate) :
    (u.completed = some false → u.completedAt = none →
      ∃ g', applyGoalUpdate today g u = .ok g' ∧ g'.completedAt = none) ∧
    (u.completed = some false → ∀ s d, u.completedAt = some s →
      parseYmd s = some d →
      ∃ g', applyGoalUpdate today g u = .ok g' ∧ g'.completedAt = some d) ∧
    (u.completed = some true → g.completedAt = none → u.completedAt = none →
      ∃ g', applyGoalUpdate today g u = .ok g' ∧ g'.completedAt = some today) ∧
    (∀ (db : List GoalRec) (uid gid : Nat) (g' : GoalRec),
      db.find? (fun r => r.id == gid && r.userId == uid) = some g →
      applyGoalUpdate today g u = .ok g' →
      update_goal today db uid gid u =
        .ok (replaceFirst (fun r => r.id == gid && r.userId == uid) g' db)) := by
  refine ⟨?_, ?_, ?_, ?_⟩
  · intro hc hca
    refine ⟨updWeek (updCompleted today (updText g u) u) u, ?_, ?_⟩
    · simp [applyGoalUpdate, updCompletedAt, hca, exceptMapOk]
    · rw [updWeek_completedAt]
      simp [updCompleted, hc]
  · intro hc s d hca hparse
    refine ⟨updWeek { updCompleted today (updText g u) u with completedAt := some d } u,
      ?_, ?_⟩
    · simp [applyGoalUpdate, updCompletedAt, hca, hparse, exceptMapOk]
    · rw [updWeek_completedAt]
  · intro hc hprior hca
    refine ⟨updWeek (updCompleted today (updText g u) u) u, ?_, ?_⟩
    · simp [applyGoalUpdate, updCompletedAt, hca, exceptMapOk]
    · rw [updWeek_completedAt]
      have hgc : (updText g u).completedAt = none := by
        rw [updText_completedAt]; exact hprior
      simp [updCompleted, hc, hgc]
  · intro db uid gid g' hfind happly
    unfold update_goal
    rw [hfind]
    show Except.map
        (fun g' => replaceFirst (fun r => r.id == gid && r.userId == uid) g' db)
        (applyGoalUpdate today g u) = _
    rw [happly]
    rfl

/-- Witness for `goal_completed_toggle`: the three completed-toggle cases
at concrete requests. -/
theorem goal_completed_toggle_witness :
    (∃ g', applyGoalUpdate ⟨2024, 5, 1⟩ sampleGoal ⟨none, some false, none, none, none⟩ =
      .ok g' ∧ g'.completedAt = none) ∧
    (∃ g', applyGoalUpdate ⟨2024, 5, 1⟩ sampleGoal toggleFalseWithDate =
      .ok g' ∧ g'.completedAt = some ⟨2024, 1, 2⟩) ∧
    (∃ g', applyGoalUpdate ⟨2024, 5, 1⟩ { sampleGoal with completedAt := none }
        ⟨none, some true, none, none, none⟩ =
      .ok g' ∧ g'.completedAt = some ⟨2024, 5, 1⟩) :=
  ⟨(goal_completed_toggle ⟨2024, 5, 1⟩ sampleGoal
      ⟨none, some false, none, none, none⟩).1 rfl rfl,
   (goal_completed_toggle ⟨2024, 5, 1⟩ sampleGoal toggleFalseWithDate).2.1 rfl
      "2024-01-02" ⟨2024, 1, 2⟩ rfl (by decide),
   (goal_completed_toggle ⟨2024, 5, 1⟩ { sampleGoal with completedAt := none }
      ⟨none, some true, none, none, none⟩).2.2.1 rfl rfl rfl⟩

theorem replaceFirst_mem {p : α → Bool} {a : α} :
    ∀ {l : List α} {x : α}, x ∈ replaceFirst p a l → x = a ∨ x ∈ l := by
  intro l
  induction l with
  | nil => intro x hx; simp [replaceFirst] at hx
  | cons y ys ih =>
      intro x hx
      unfold replaceFirst at hx
      by_cases hp : p y
      · rw [if_pos hp] at hx
        rcases List.mem_cons.mp hx with h | h
        · exact Or.inl h
        · exact Or.inr (List.mem_cons_of_mem y h)
      · rw [if_neg hp] at hx
        rcases List.mem_cons.mp hx with h | h
        · exact Or.inr (h ▸ List.mem_cons_self y ys)
        · rcases ih h with h' | h'
          · exact Or.inl h'
          · exact Or.inr (List.mem_cons_of_mem y h')

theorem updText_userId (g : GoalRec) (u : GoalUpdate) :
    (updText g u).userId = g.userId := by
  cases ht : u.text <;> simp [updText, ht]

theorem updCompleted_userId (today : PyDate) (g : GoalRec) (u : GoalUpdate) :
    (updCompleted today g u).userId = g.userId := by
  cases hc : u.completed with
  | none => simp [updCompleted, hc]
  | some c =>
      simp only [updCompleted, hc]
      split
      · rfl
      · split <;> rfl

theorem updCompletedAt_userId {g g' : GoalRec} {u : GoalUpdate}
    (h : updCompletedAt g u = .ok g') : g'.userId = g.userId := by
  unfold updCompletedAt at h
  cases hca : u.completedAt with
  | none =>
      rw [hca] at h
      injection h with h
      rw [← h]
  | some s =>
      simp only [hca] at h
      cases hp : parseYmd s with
      | none => rw [hp] at h; exact absurd h (by simp)
      | some d =>
          rw [hp] at h
          injection h with h
          rw [← h]

theorem updWeek_userId (g : GoalRec) (u : GoalUpdate) :
    (updWeek g u).userId = g.userId := by
  cases hwy : u.weekYear <;> cases hwi : u.weekIndex <;> simp [updWeek, hwy, hwi]

theorem applyGoalUpdate_userId {today : PyDate} {g g' : GoalRec} {u : GoalUpdate}
    (h : applyGoalUpdate today g u = .ok g') : g'.userId = g.userId := by
  unfold applyGoalUpdate at h
  cases hmid : updCompletedAt (updCompleted today (updText g u) u) u with
  | error e => rw [hmid] at h; exact absurd h (by simp [Except.map])
  | ok g3 =>
      rw [hmid, exceptMapOk] at h
      injection h with h
      rw [← h, updWeek_userId]
      rw [updCompletedAt_userId hmid, updCompleted_userId, updText_userId]

theorem sdUpdTitle_userId (sd : SpecialDayRec) (u : SpecialDayUpdate) :
    (sdUpdTitle sd u).userId = sd.userId := by
  cases ht : u.title <;> simp [sdUpdTitle, ht]

theorem sdUpdDate_userId {sd sd' : SpecialDayRec} {u : SpecialDayUpdate}
    (h : sdUpdDate sd u = .ok sd') : sd'.userId = sd.userId := by
  unfold sdUpdDate at h
  cases hca : u.date with
  | none =>
      rw [hca] at h
      injection h with h
      rw [← h]
  | some s =>
      simp only [hca] at h
      cases hp : parseYmd s with
      | none => rw [hp] at h; exact absurd h (by simp)
      | some d =>
          rw [hp] at h
          injection h with h
          rw [← h]

theorem sdUpdRest_userId (sd : SpecialDayRec) (u : SpecialDayUpdate) :
    (sdUpdRest sd u).userId = sd.userId := by
  cases h1 : u.type <;> cases h2 : u.repeatYearly <;> cases h3 : u.notifyDaysBefore <;>
    simp [sdUpdRest, h1, h2, h3]

theorem applySpecialDayUpdate_userId {sd sd' : SpecialDayRec} {u : SpecialDayUpdate}
    (h : applySpecialDayUpdate sd u = .ok sd') : sd'.userId = sd.userId := by
  unfold applySpecialDayUpdate at h
  cases hmid : sdUpdDate (sdUpdTitle sd u) u with
  | error e => rw [hmid] at h; exact absurd h (by simp [Except.map])
  | ok s2 =>
      rw [hmid, exceptMapOk] at h
      injection h with h
      rw [← h, sdUpdRest_userId, sdUpdDate_userId hmid, sdUpdTitle_userId]

/-- Claim C8 (confirmed): for goal and special-day update and delete, an id
that does not exist and an id owned by another user go through the same
lookup branch and produce the identical not-found error (raised before any
mutation, so state is unchanged); a committed update or delete never
introduces or alters a row of another user; and the list reads return only
caller-owned rows. -/
theorem cross_user_isolation :
    (∀ (today : PyDate) (db : List GoalRec) (uid gid : Nat) (u : GoalUpdate),
      (∀ r ∈ db, r.id = gid → r.userId ≠ uid) →
      update_goal today db uid gid u = .error goalNotFound) ∧
    (∀ (db : List GoalRec) (uid gid : Nat),
      (∀ r ∈ db, r.id = gid → r.userId ≠ uid) →
      delete_goal db uid gid = .error goalNotFound) ∧
    (∀ (db : List SpecialDayRec) (uid sid : Nat) (u : SpecialDayUpdate),
      (∀ r ∈ db, r.id = sid → r.userId ≠ uid) →
      update_special_day db uid sid u = .error specialDayNotFound) ∧
    (∀ (db : List SpecialDayRec) (uid sid : Nat),
      (∀ r ∈ db, r.id = sid → r.userId ≠ uid) →
      delete_special_day db uid sid = .error specialDayNotFound) ∧
    (∀ (today : PyDate) (db db' : List GoalRec) (uid gid : Nat) (u : GoalUpdate),
      update_goal today db uid gid u = .ok db' →
      ∀ r' ∈ db', r'.userId ≠ uid → r' ∈ db) ∧
    (∀ (db db' : List GoalRec) (uid gid : Nat),
      delete_goal db uid gid = .ok db' → ∀ r' ∈ db', r' ∈ db) ∧
    (∀ (db db' : List SpecialDayRec) (uid sid : Nat) (u : SpecialDayUpdate),
      update_special_day db uid sid u = .ok db' →
      ∀ r' ∈ db', r'.userId ≠ uid → r' ∈ db) ∧
    (∀ (db db' : List SpecialDayRec) (uid sid : Nat),
      delete_special_day db uid sid = .ok db' → ∀ r' ∈ db', r' ∈ db) ∧
    (∀ (db : List GoalRec) (uid : Nat), ∀ r ∈ get_goals db uid, r.userId = uid) ∧
    (∀ (db : List SpecialDayRec) (uid : Nat),
      ∀ r ∈ get_special_days db uid, r.userId = uid) := by
  have hfindg : ∀ (db : List GoalRec) (uid gid : Nat),
      (∀ r ∈ db, r.id = gid → r.userId ≠ uid) →
      db.find? (fun r => r.id == gid && r.userId == uid) = none := by
    intro db uid gid hnot
    rw [List.find?_eq_none]
    intro r hr hcontra
    simp only [Bool.and_eq_true, beq_iff_eq] at hcontra
    exact hnot r hr hcontra.1 hcontra.2
  have hfinds : ∀ (db : List SpecialDayRec) (uid sid : Nat),
      (∀ r ∈ db, r.id = sid → r.userId ≠ uid) →
      db.find? (fun r => r.id == sid && r.userId == uid) = none := by
    intro db uid sid hnot
    rw [List.find?_eq_none]
    intro r hr hcontra
    simp only [Bool.and_eq_true, beq_iff_eq] at hcontra
    exact hnot r hr hcontra.1 hcontra.2
  refine ⟨?_, ?_, ?_, ?_, ?_, ?_, ?_, ?_, ?_, ?_⟩
  · intro today db uid gid u hnot
    unfold update_goal
    rw [hfindg db uid gid hnot]
  · intro db uid gid hnot
    unfold delete_goal
    rw [hfindg db uid gid hnot]
  · intro db uid sid u hnot
    unfold update_special_day
    rw [hfinds db uid sid hnot]
  · intro db uid sid hnot
    unfold delete_special_day
    rw [hfinds db uid sid hnot]
  · intro today db db' uid gid u h r' hr' hneq
    unfold update_goal at h
    cases hfind : db.find? (fun r => r.id == gid && r.userId == uid) with
    | none => rw [hfind] at h; exact absurd h (by simp)
    | some g =>
        simp only [hfind] at h
        cases happ : applyGoalUpdate today g u with
        | error e => rw [happ] at h; exact absurd h (by simp [Except.map])
        | ok g' =>
            rw [happ, exceptMapOk] at h
            injection h with h
            rw [← h] at hr'
            rcases replaceFirst_mem hr' with heq | hmem
            · exfalso
              apply hneq
              rw [heq, applyGoalUpdate_userId happ]
              have := List.find?_some hfind
              simp only [Bool.and_eq_true, beq_iff_eq] at this
              exact this.2
            · exact hmem
  · intro db db' uid gid h r' hr'
    unfold delete_goal at h
    cases hfind : db.find? (fun r => r.id == gid && r.userId == uid) with
    | none => rw [hfind] at h; exact absurd h (by simp)
    | some g =>
        simp only [hfind] at h
        injection h with h
        rw [← h] at hr'
        exact List.eraseP_subset db hr'
  · intro db db' uid sid u h r' hr' hneq
    unfold update_special_day at h
    cases hfind : db.find? (fun r => r.id == sid && r.userId == uid) with
    | none => rw [hfind] at h; exact absurd h (by simp)
    | some sd =>
        simp only [hfind] at h
        cases happ : applySpecialDayUpdate sd u with
        | error e => rw [happ] at h; exact absurd h (by simp [Except.map])
        | ok sd' =>
            rw [happ, exceptMapOk] at h
            injection h with h
            rw [← h] at hr'
            rcases replaceFirst_mem hr' with heq | hmem
            · exfalso
              apply hneq
              rw [heq, applySpecialDayUpdate_userId happ]
              have := List.find?_some hfind
              simp only [Bool.and_eq_true, beq_iff_eq] at this
              exact this.2
            · exact hmem
  · intro db db' uid sid h r' hr'
    unfold delete_special_day at h
    cases hfind : db.find? (fun r => r.id == sid && r.userId == uid) with
    | none => rw [hfind] at h; exact absurd h (by simp)
    | some sd =>
        simp only [hfind] at h
        injection h with h
        rw [← h] at hr'
        exact List.eraseP_subset db hr'
  · intro db uid r hr
    unfold get_goals at hr
    have := (List.mem_filter.mp hr).2
    simpa using this
  · intro db uid r hr
    unfold get_special_days at hr
    have := (List.mem_filter.mp hr).2
    simpa using this

/-- A goal row owned by user 2 with id 1, and a special-day row owned by
user 2 with id 1 (for the cross-user witnesses). -/
def foreignGoal : GoalRec := ⟨1, 2, "theirs", false, none, none, none, ⟨2024, 1, 1⟩⟩

def foreignSpecialDay : SpecialDayRec :=
  ⟨1, 2, "theirs", ⟨2024, 3, 1⟩, "anniversary", true, 0, ⟨2024, 1, 1⟩⟩

/-- Witness for `cross_user_isolation`: user 1 targeting an absent id and
an id owned by user 2 receives the identical not-found error on all four
mutating routes. -/
theorem cross_user_isolation_witness :
    update_goal ⟨2024, 5, 1⟩ [] 1 1 ⟨none, none, none, none, none⟩ =
      .error goalNotFound ∧
    update_goal ⟨2024, 5, 1⟩ [foreignGoal] 1 1 ⟨none, none, none, none, none⟩ =
      .error goalNotFound ∧
    delete_goal [foreignGoal] 1 1 = .error goalNotFound ∧
    update_special_day [foreignSpecialDay] 1 1 ⟨none, none, none, none, none⟩ =
      .error specialDayNotFound ∧
    delete_special_day [foreignSpecialDay] 1 1 = .error specialDayNotFound :=
  ⟨cross_user_isolation.1 ⟨2024, 5, 1⟩ [] 1 1 ⟨none, none, none, none, none⟩
     (by simp),
   cross_user_isolation.1 ⟨2024, 5, 1⟩ [foreignGoal] 1 1
     ⟨none, none, none, none, none⟩ (by decide),
   cross_user_isolation.2.1 [foreignGoal] 1 1 (by decide),
   cross_user_isolation.2.2.1 [foreignSpecialDay] 1 1
     ⟨none, none, none, none, none⟩ (by decide),
   cross_user_isolation.2.2.2.1 [foreignSpecialDay] 1 1 (by decide)⟩

/-! ## GPS / city extraction (utils.py `_to_float`, `_dms_to_degrees`,
`extract_gps_coordinates`, `reverse_geocode_city`,
`extract_city_from_image`)

EXIF values reaching `_to_float` are modelled by `PyV`; values `float()`
accepts (int, float, PIL rationals) carry their rational value, tuples and
lists make `float()` raise and are handled by the explicit
numerator/denominator branch.  Float arithmetic is modelled exactly in ℚ
(claim C9 concerns error behaviour, not rounding). -/

inductive PyV where
  | vNone
  | vNum (q : ℚ)
  | vTup (xs : List PyV)
  | vOther

/-- Python `float(value)`: `some` when the conversion succeeds. -/
def pyFloat : PyV → Option ℚ
  | .vNum q => some q
  | _ => none

/-- utils.py `_to_float`: `None` for `None`; `float(value)` if it
succeeds; else the two-element tuple/list branch with an explicit
zero-denominator check; anything else yields `None`. -/
def to_float : PyV → Option ℚ
  | .vNone => none
  | v =>
      match pyFloat v with
      | some q => some q
      | none =>
          match v with
          | .vTup [n, d] =>
              (match pyFloat d with
               | some df =>
                  if df = 0 then none
                  else
                    (match pyFloat n with
                     | some nf => some (nf / df)
                     | none => none)
               | none => none)
          | _ => none

/-- utils.py `_dms_to_degrees`: requires a three-element tuple/list of
convertible values, else `None`. -/
def dms_to_degrees : PyV → Option ℚ
  | .vTup [a, b, c] =>
      (match to_float a, to_float b, to_float c with
       | some degrees, some minutes, some seconds =>
           some (degrees + minutes / 60 + seconds / 3600)
       | _, _, _ => none)
  | _ => none

/-- A GPS reference tag value (`gps_info.get(1)` / `get(3)`); bytes are
decoded with utf-8/ignore before the `str(...)` call, and `str(None)` is
the literal "None". -/
inductive RefV where
  | rNone
  | rStr (s : String)
  | rBytes (s : String)

def refString : RefV → String
  | .rNone => "None"
  | .rStr s => s
  | .rBytes s => s

def pyUpper (s : String) : String := String.map Char.toUpper s

/-- The GPS IFD entries the source reads (`.get` yields `vNone`/`rNone`
for absent keys). -/
structure GpsIfd where
  latRef : RefV
  latDms : PyV
  lonRef : RefV
  lonDms : PyV

/-- The inputs of `extract_gps_coordinates`: whether opening/decoding the
stream raises, whether `getexif()` returned a non-empty block, and the GPS
IFD (`none` models a missing or empty `get_ifd(34853)`). -/
structure GpsImage where
  openRaises : Bool
  exifPresent : Bool
  gpsInfo : Option GpsIfd

/-- utils.py `extract_gps_coordinates`: the whole body sits in a
`try/except` returning `None` on any exception; otherwise absent EXIF,
absent GPS IFD or unconvertible DMS values yield `None`, and south/west
references negate the coordinates. -/
def extract_gps_coordinates (img : GpsImage) : Option (ℚ × ℚ) :=
  if img.openRaises then none
  else if ¬ img.exifPresent then none
  else
    match img.gpsInfo with
    | none => none
    | some gps =>
        match dms_to_degrees gps.latDms, dms_to_degrees gps.lonDms with
        | some lat, some lon =>
            some (if pyUpper (refString gps.latRef) = "S" then -lat else lat,
                  if pyUpper (refString gps.lonRef) = "W" then -lon else lon)
        | _, _ => none

/-- Fields of the Nominatim `address` object the source inspects. -/
structure GeoAddress where
  city : Option String
  town : Option String
  municipality : Option String
  county : Option String
  state : Option String

/-- Python `a or b` on optional strings: empty strings are falsy. -/
def orFalsy (a b : Option String) : Option String :=
  match a with
  | some s => if s = "" then b else some s
  | none => b

/-- utils.py `reverse_geocode_city`: `response = none` models any network,
timeout or parse failure (the `except` branch); otherwise prefer
city > town > municipality > county > state, and strip the result,
returning `None` when it is falsy or strips to the empty string. -/
def reverse_geocode_city (lat lon : ℚ) (response : Option GeoAddress) :
    Option String :=
  match response with
  | none => none
  | some address =>
      match orFalsy address.city (orFalsy address.town (orFalsy address.municipality
          (orFalsy address.county address.state))) with
      | none => none
      | some c =>
          if c = "" then none
          else if c.trim = "" then none else some c.trim

/-- utils.py `extract_city_from_image`: GPS extraction then reverse
geocoding, each best-effort. -/
def extract_city_from_image (img : GpsImage) (response : Option GeoAddress) :
    Option String :=
  match extract_gps_coordinates img with
  | none => none
  | some (lat, lon) => reverse_geocode_city lat lon response

/-- Claim C9 (confirmed): every failure mode of the GPS/city enrichment
path — a raising decode, missing EXIF, missing GPS IFD, malformed DMS
tuples, non-convertible values, zero denominators, and network/parse
failure of the reverse-geocoding call — produces the no-location/no-city
result `none` instead of propagating an error, so the enrichment can never
abort the caller's save flow. -/
theorem gps_extraction_swallows_failures :
    (∀ img : GpsImage, img.openRaises = true → extract_gps_coordinates img = none) ∧
    (∀ img : GpsImage, img.exifPresent = false → extract_gps_coordinates img = none) ∧
    (∀ img : GpsImage, img.openRaises = false → img.gpsInfo = none →
      extract_gps_coordinates img = none) ∧
    (∀ (img : GpsImage) (gps : GpsIfd), img.gpsInfo = some gps →
      dms_to_degrees gps.latDms = none → extract_gps_coordinates img = none) ∧
    (∀ v : PyV, (∀ q, v ≠ .vNum q) → (∀ n d, v ≠ .vTup [n, d]) →
      to_float v = none) ∧
    (∀ n : PyV, to_float (.vTup [n, .vNum 0]) = none) ∧
    (∀ xs : List PyV, xs.length ≠ 3 → dms_to_degrees (.vTup xs) = none) ∧
    (∀ lat lon : ℚ, reverse_geocode_city lat lon none = none) ∧
    (∀ (img : GpsImage) (response : Option GeoAddress),
      extract_gps_coordinates img = none →
      extract_city_from_image img response = none) := by
  refine ⟨?_, ?_, ?_, ?_, ?_, ?_, ?_, ?_, ?_⟩
  · intro img h
    unfold extract_gps_coordinates
    rw [if_pos h]
  · intro img h
    unfold extract_gps_coordinates
    by_cases ho : img.openRaises
    · rw [if_pos ho]
    · rw [if_neg ho, if_pos (by simp [h])]
  · intro img ho hg
    unfold extract_gps_coordinates
    rw [if_neg (by simp [ho]), hg]
    by_cases he : img.exifPresent <;> simp [he]
  · intro img gps hg hdms
    unfold extract_gps_coordinates
    rw [hg]
    by_cases ho : img.openRaises
    · rw [if_pos ho]
    · rw [if_neg ho]
      by_cases he : img.exifPresent
      · rw [if_neg (by simp [he])]
        simp only [hdms]
      · rw [if_pos (by simp [he])]
  · intro v hnum htup
    cases v with
    | vNone => rfl
    | vNum q => exact absurd rfl (hnum q)
    | vOther => rfl
    | vTup xs =>
        cases xs with
        | nil => rfl
        | cons a t =>
            cases t with
            | nil => rfl
            | cons b t2 =>
                cases t2 with
                | nil => exact absurd rfl (htup a b)
                | cons c t3 => rfl
  · intro n
    simp [to_float, pyFloat]
  · intro xs hlen
    cases xs with
    | nil => rfl
    | cons a t =>
        cases t with
        | nil => rfl
        | cons b t2 =>
            cases t2 with
            | nil => rfl
            | cons c t3 =>
                cases t3 with
                | nil => exact absurd rfl hlen
                | cons d t4 => rfl
  · intro lat lon
    rfl
  · intro img response h
    unfold extract_city_from_image
    rw [h]

/-- Witness for `gps_extraction_swallows_failures` at concrete failing
inputs for each failure mode. -/
theorem gps_extraction_swallows_failures_witness :
    extract_gps_coordinates ⟨true, true, none⟩ = none ∧
    extract_gps_coordinates ⟨false, false, none⟩ = none ∧
    extract_gps_coordinates ⟨false, true, none⟩ = none ∧
    extract_gps_coordinates ⟨false, true, some ⟨.rStr "N", .vOther, .rStr "E",
      .vOther⟩⟩ = none ∧
    to_float .vOther = none ∧
    to_float (.vTup [.vNum 1, .vNum 0]) = none ∧
    dms_to_degrees (.vTup [.vNum 1, .vNum 2]) = none ∧
    reverse_geocode_city 10 20 none = none ∧
    extract_city_from_image ⟨true, true, none⟩ (some ⟨some "Paris", none, none,
      none, none⟩) = none :=
  ⟨gps_extraction_swallows_failures.1 ⟨true, true, none⟩ rfl,
   gps_extraction_swallows_failures.2.1 ⟨false, false, none⟩ rfl,
   gps_extraction_swallows_failures.2.2.1 ⟨false, true, none⟩ rfl rfl,
   gps_extraction_swallows_failures.2.2.2.1 ⟨false, true, some ⟨.rStr "N",
     .vOther, .rStr "E", .vOther⟩⟩ ⟨.rStr "N", .vOther, .rStr "E", .vOther⟩
     rfl rfl,
   gps_extraction_swallows_failures.2.2.2.2.1 .vOther (fun q h => nomatch h)
     (fun n d h => nomatch h),
   gps_extraction_swallows_failures.2.2.2.2.2.1 (.vNum 1),
   gps_extraction_swallows_failures.2.2.2.2.2.2.1 [.vNum 1, .vNum 2] (by simp),
   gps_extraction_swallows_failures.2.2.2.2.2.2.2.1 10 20,
   gps_extraction_swallows_failures.2.2.2.2.2.2.2.2 ⟨true, true, none⟩
     (some ⟨some "Paris", none, none, none, none⟩)
     (gps_extraction_swallows_failures.1 ⟨true, true, none⟩ rfl)⟩

end Memento
